import Mathlib

/-!
Shallow embedding of the barcodeqc barcode-counting and spatial-reconstruction
pipeline (src/barcodeqc/{files,steps,utils}.py), with theorems checking the
natural-language specification's claims against it.

Conventions of the embedding:
* pandas DataFrames become Lean lists of structures (one structure per row);
  a cell that can be missing (NaN) becomes an `Option`;
* Python floats become `ℚ` (exact rational arithmetic);
* fallible code returns `Except`; `exit(code)` and uncaught exceptions become
  explicit constructors of an outcome type;
* pandas `sort_values` becomes `List.insertionSort` (a stable sort),
  `Series.value_counts` becomes `valueCounts` below, `pd.merge` becomes an
  explicit nested traversal producing the same multiset of rows.
-/

namespace BarcodeQC

/-- A pandas cell as the loaders see it: a Python string, a number, or a
missing value (NaN). -/
inductive Cell where
  | str (s : String)
  | num (q : ℚ)
  | na
deriving Repr, DecidableEq

/-- The DNA alphabet used by the 8-mer patterns, `[ACGTN]`. -/
def acgtn : List Char := ['A', 'C', 'G', 'T', 'N']

/-- Matching the regex `^[ACGTN]{8,}$` of `utils.contains_acgt_word`:
eight or more characters, all drawn from A,C,G,T,N. -/
def isAcgtWord (s : String) : Bool :=
  decide (8 ≤ s.length) && s.toList.all (fun c => acgtn.contains c)

/-- `utils.contains_acgt_word`: indices of the fields of a parsed line that
match the 8-mer-or-longer pattern. -/
def contains_acgt_word (input_list : List String) : List ℕ :=
  (input_list.enum.filter (fun p => isAcgtWord p.2)).map (fun p => p.1)

/-- How loading a wildcard file can fail.  `emptyDataError` is what
`pd.read_csv` raises on an empty file, `indexError` what `df.iloc[5, :]`
(or the out-of-range `colNames` assignment) raises; both are Python
exceptions distinct from the module's own `WildcardFileError`. -/
inductive LoadErr where
  | emptyDataError
  | indexError
  | wildcardFileError (msg : String)
deriving Repr, DecidableEq

/-- Python exception-hierarchy fact used by `except ValueError` handlers:
`WildcardFileError` subclasses `ValueError`, and pandas `EmptyDataError`
subclasses `ValueError`; `IndexError` does not. -/
def isValueError : LoadErr → Bool
  | .wildcardFileError _ => true
  | .emptyDataError => true
  | .indexError => false

/-- One row of a parsed wildcard file: the discovered 8-mer column and the
column right after it, renamed `readName`. -/
structure WcRec where
  mer8 : String
  readName : String
deriving Repr, DecidableEq

/-- `files.load_wc_file`: read the whitespace-delimited file (given here as
its already-split rows), take the sample row at index 5, scan its fields for
the 8-mer pattern; exactly one field must match, and that column plus the
next one become `8mer` / `readName`.  An empty file fails inside
`pd.read_csv`; a file with at most 5 rows fails at the `iloc[5, :]` access;
a sample row whose match count is not 1 raises `WildcardFileError`; a match
in the last column makes `colNames[merCol + 1]` an out-of-range list
assignment. -/
def load_wc_file (rows : List (List String)) : Except LoadErr (List WcRec) :=
  if rows.isEmpty then .error .emptyDataError
  else
    match rows.get? 5 with
    | none => .error .indexError
    | some testLine =>
      match contains_acgt_word testLine with
      | [merCol] =>
        if merCol + 1 < testLine.length then
          .ok (rows.map (fun r => ⟨r.getD merCol "", r.getD (merCol + 1) ""⟩))
        else .error .indexError
      | _ => .error (.wildcardFileError "No 8-mer column matches found")

/-- pandas `Series.value_counts`: one entry per distinct value with its
occurrence count, ordered by count descending. -/
def valueCounts (l : List String) : List (String × ℕ) :=
  (l.dedup.map (fun s => (s, l.count s))).insertionSort (fun a b => b.2 ≤ a.2)

/-- One row of the sorted per-8-mer count table of `build_count_table`
(steps.py lines 39-44), before the whitelist join. -/
structure CRow where
  sequence : String
  count : ℕ
  frac_count : ℚ
  cumulative_sum : ℚ
deriving Repr, DecidableEq

/-- `DataFrame.cumsum` on the `frac_count` column: thread the running sum
through the rows. -/
def addCumulative (acc : ℚ) : List (String × ℕ × ℚ) → List CRow
  | [] => []
  | (s, c, f) :: t => ⟨s, c, f, acc + f⟩ :: addCumulative (acc + f) t

/-- steps.py lines 39-43: value counts of the `8mer` column, `frac_count` =
count / total (the total is `unique_counts.sum()`), sorted by `frac_count`
descending. -/
def sortedWithFrac (mers : List String) : List (String × ℕ × ℚ) :=
  ((valueCounts mers).map (fun p =>
    (p.1, p.2, (p.2 : ℚ) / ((((valueCounts mers).map (fun q => q.2)).sum : ℕ) : ℚ)))).insertionSort
    (fun a b => b.2.2 ≤ a.2.2)

/-- steps.py lines 39-44: the sorted count table with the running
`cumulative_sum` column added. -/
def count_table_sorted (mers : List String) : List CRow :=
  addCumulative 0 (sortedWithFrac mers)

/-- Round to an integer, ties to even: the rounding Python's fixed-point
formatting applies. -/
def roundHalfEven (q : ℚ) : ℤ :=
  let fl := ⌊q⌋
  let frac := q - fl
  if frac < 1/2 then fl
  else if 1/2 < frac then fl + 1
  else if fl % 2 = 0 then fl else fl + 1

/-- Python `f"{q:.1%}"`: the value as a percentage with one decimal place. -/
def pctFormat (q : ℚ) : String :=
  let n := roundHalfEven (q * 1000)
  toString (n / 10) ++ "." ++ toString (n % 10) ++ "%"

/-- One validated whitelist row as `open_barcode_file` returns it
(files.py): an 8-mer `sequence` with integer `row`/`col` coordinates. -/
structure BCLRow where
  sequence : String
  row : ℤ
  col : ℤ
deriving Repr, DecidableEq

/-- The `row_col` argument of `build_count_table`: which whitelist coordinate
this linker side encodes. -/
inductive RowCol where
  | row
  | col
deriving Repr, DecidableEq

/-- One row of the full count table `build_count_table` returns: the sorted
count/fraction columns plus the whitelist-joined `row`/`col`, the selected
`channel`, and the `expectMer` flag. -/
structure CountRow where
  sequence : String
  count : ℕ
  frac_count : ℚ
  cumulative_sum : ℚ
  row : Option ℤ
  col : Option ℤ
  channel : Option ℤ
  expectMer : Bool
deriving Repr, DecidableEq

/-- The parts of `build_count_table`'s return value the claims speak about. -/
structure BuildCountResult where
  table : List CountRow
  num_to_ninety : ℕ
  pct_for_50 : String
  pct_for_96 : String
deriving Repr, DecidableEq

/-- One count row put through the whitelist join of steps.py lines 56-63:
`count_table.join(bcl.set_index("sequence")[["row", "col"]], how="left")`
copies `row`/`col` from each matching whitelist row (a duplicated whitelist
sequence duplicates the joined row, as pandas does), leaves them missing
when the sequence is not whitelisted, sets `channel` to the requested
coordinate and `expectMer` to membership in `expected`. -/
def joinOneRow (bcl : List BCLRow) (row_col : RowCol) (expected : List String)
    (r : CRow) : List CountRow :=
  let ms := bcl.filter (fun b => b.sequence == r.sequence)
  let expect := expected.contains r.sequence
  if ms.isEmpty then
    [⟨r.sequence, r.count, r.frac_count, r.cumulative_sum, none, none, none, expect⟩]
  else
    ms.map (fun b =>
      ⟨r.sequence, r.count, r.frac_count, r.cumulative_sum, some b.row, some b.col,
        (match row_col with | .row => some b.row | .col => some b.col), expect⟩)

/-- The whitelist left-join applied to the whole count table. -/
def joinWhitelist (bcl : List BCLRow) (row_col : RowCol) (expected : List String)
    (pre : List CRow) : List CountRow :=
  pre.flatMap (joinOneRow bcl row_col expected)

/-- `steps.build_count_table` on an already-loaded wildcard table (`mers` is
its `8mer` column) and validated whitelist `bcl`.  `num_to_ninety` counts the
rows whose `cumulative_sum` is at most 0.9; `pct_for_50`/`pct_for_96` format
the summed `frac_count` of the first 50/96 rows (pandas `iloc[:50]` slicing
truncates silently on shorter tables, so the `except` branch that would
produce the string "NaN" is unreachable and does not appear here);
`expected_bcs` is the intersection of observed sequences and the whitelist. -/
def build_count_table (mers : List String) (bcl : List BCLRow) (row_col : RowCol) :
    BuildCountResult :=
  let pre := count_table_sorted mers
  let num_to_ninety := (pre.filter (fun r => decide (r.cumulative_sum ≤ 9/10))).length
  let pct_for_50 := pctFormat (((pre.map (fun r => r.frac_count)).take 50).sum)
  let pct_for_96 := pctFormat (((pre.map (fun r => r.frac_count)).take 96).sum)
  let expected_bcs :=
    (pre.map (fun r => r.sequence)).filter
      (fun s => (bcl.map (fun b => b.sequence)).contains s)
  ⟨joinWhitelist bcl row_col expected_bcs pre, num_to_ninety, pct_for_50, pct_for_96⟩

/-- One row of the lane-QC table `compute_hi_lo_qc` returns. -/
structure LaneRow where
  channel : Option ℤ
  frac_count : ℚ
  hiWarn : Bool
  loWarn : Bool
deriving Repr, DecidableEq

/-- pandas `sort_values` ordering on a column with missing values: missing
sorts after every number. -/
def chanLEb (a b : Option ℤ) : Bool :=
  match a, b with
  | some x, some y => decide (x ≤ y)
  | none, some _ => false
  | _, none => true

/-- steps.py lines 82-84: the `expectMer`-restricted table, sorted by
channel ascending. -/
def laneRestrict (ct : List CountRow) : List CountRow :=
  (ct.filter (fun r => r.expectMer)).insertionSort
    (fun a b => chanLEb a.channel b.channel = true)

/-- steps.py lines 94-95: one row's warning flags against the cuts
`upper_cut = 2 * mean` and `lower_cut = 0.5 * mean`. -/
def flagLane (mean : ℚ) (r : CountRow) : LaneRow :=
  ⟨r.channel, r.frac_count, decide (r.frac_count > 2 * mean),
    decide (r.frac_count < (1/2 : ℚ) * mean)⟩

/-- `steps.compute_hi_lo_qc`: restrict to `expectMer` rows, sort by channel
ascending, compute the mean of `frac_count` over the restricted set, and flag
`hiWarn` where `frac_count` exceeds twice the mean and `loWarn` where it is
below half the mean.  Returns the flagged table and the hi/lo/total counts. -/
def compute_hi_lo_qc (ct : List CountRow) : List LaneRow × ℕ × ℕ × ℕ :=
  let bc := laneRestrict ct
  let mean := (bc.map (fun r => r.frac_count)).sum / (bc.length : ℚ)
  let out := bc.map (flagLane mean)
  (out, (out.filter (fun r => r.hiWarn)).length,
    (out.filter (fun r => r.loWarn)).length, out.length)

/-- The `flag_col` argument of `lane_status`: which warning column to read. -/
inductive FlagCol where
  | hiWarn
  | loWarn
deriving Repr, DecidableEq

/-- Reading the selected flag column of a lane row. -/
def flagVal (r : LaneRow) : FlagCol → Bool
  | .hiWarn => r.hiWarn
  | .loWarn => r.loWarn

/-- steps.py lines 185-191: the distinct channels of the rows whose selected
flag is set, rows with a missing channel dropped (`dropna`). -/
def flaggedChannels (bc : List LaneRow) (flag : FlagCol) : List ℤ :=
  (bc.filterMap (fun r => if flagVal r flag then r.channel else none)).dedup

/-- steps.py lines 195-197: some consecutive pair of the sorted flagged
channels differs by exactly one. -/
def hasAdjacent (l : List ℤ) : Bool :=
  (l.zip l.tail).any (fun p => p.2 - p.1 == 1)

/-- `steps.lane_status`: PASS with no flagged channels, otherwise CONTACT
SUPPORT when two flagged channels are adjacent and ACTION REQUIRED when not.
The function never inspects which flag column was selected beyond reading it,
and has no notion of the array's edges. -/
def lane_status (bc : List LaneRow) (flag : FlagCol) : String :=
  let flagged := flaggedChannels bc flag
  if flagged.isEmpty then "PASS"
  else if hasAdjacent (flagged.insertionSort (· ≤ ·)) then "CONTACT SUPPORT"
  else "ACTION REQUIRED"

/-- One validated tissue-position row as `open_positions_file` returns it:
a 16-mer `barcodes` value, an `on_off` flag and `row`/`col` coordinates. -/
structure PosRow where
  barcodes : String
  on_off : ℤ
  row : ℤ
  col : ℤ
deriving Repr, DecidableEq

/-- One row of the spatial table: the outer merge of the 16-mer count table
against the tissue positions, so any column can be missing. -/
structure SpatialRow where
  mer16 : Option String
  count : Option ℕ
  barcodes : Option String
  on_off : Option ℤ
  row : Option ℤ
  col : Option ℤ
deriving Repr, DecidableEq

/-- steps.py lines 222-225: inner merge of the two wildcard tables on
`readName` (each matching pair of rows contributes), then the combined
16-mer, side B (linker 2) first. -/
def merged16 (t1 t2 : List WcRec) : List String :=
  t1.flatMap (fun a =>
    (t2.filter (fun b => b.readName == a.readName)).map (fun b => b.mer8 ++ a.mer8))

/-- One 16-mer count entry merged against the tissue positions: one output
row per matching position row, or a single left-only row with missing
position columns when no position matches. -/
def mergeLeftRow (positions : List PosRow) (p : String × ℕ) : List SpatialRow :=
  let ms := positions.filter (fun q => q.barcodes == p.1)
  if ms.isEmpty then [⟨some p.1, some p.2, none, none, none, none⟩]
  else ms.map (fun q =>
    ⟨some p.1, some p.2, some q.barcodes, some q.on_off, some q.row, some q.col⟩)

/-- The pandas outer merge of steps.py lines 239-245: the left-keyed rows
(matched or left-only), then the right-only position rows — positions whose
barcode matches no counted 16-mer — with missing count columns. -/
def outerMergeRows (counts : List (String × ℕ)) (positions : List PosRow) :
    List SpatialRow :=
  counts.flatMap (mergeLeftRow positions)
    ++ ((positions.filter (fun q => counts.all (fun p => !(p.1 == q.barcodes)))).map
      (fun q => ⟨none, none, some q.barcodes, some q.on_off, some q.row, some q.col⟩))

/-- steps.py lines 228-248: count the combined 16-mers, outer-merge against
the tissue positions on 16mer = barcodes, and `dropna` on
`row`/`col`/`on_off`, which removes exactly the left-only rows. -/
def spatialCore (t1 t2 : List WcRec) (positions : List PosRow) : List SpatialRow :=
  (outerMergeRows (valueCounts (merged16 t1 t2)) positions).filter
    (fun r => r.row.isSome && r.col.isSome && r.on_off.isSome)

/-- How a call of `make_spatial_table` can end: a completed table, a call of
`exit(code)`, or an uncaught Python exception. -/
inductive SpatialOutcome where
  | exited (code : ℕ)
  | raised (e : LoadErr)
  | ok (table : List SpatialRow)
deriving Repr, DecidableEq

/-- `steps.make_spatial_table`: load both wildcard files; a load failure that
is a `ValueError` (the module's `WildcardFileError`, or pandas
`EmptyDataError`) is caught by the `except ValueError` handler, which logs
and calls `exit(0)`; any other exception propagates.  On success the merged
spatial table of `spatialCore` is returned. -/
def make_spatial_table (wc1 wc2 : List (List String)) (positions : List PosRow) :
    SpatialOutcome :=
  match load_wc_file wc1 with
  | .error e => if isValueError e then .exited 0 else .raised e
  | .ok t1 =>
    match load_wc_file wc2 with
    | .error e => if isValueError e then .exited 0 else .raised e
    | .ok t2 => .ok (spatialCore t1 t2 positions)

/-- `\s*` then `(\d+)`: skip whitespace, then capture a maximal nonempty
digit run; `none` when no digit follows the whitespace. -/
def matchSpacesDigits (cs : List Char) : Option String :=
  let rest := cs.dropWhile (fun c => c.isWhitespace)
  let ds := rest.takeWhile (fun c => c.isDigit)
  if ds.isEmpty then none else some (String.mk ds)

/-- `re.search` of a literal label followed by `\s*(\d+)`: try every start
position left to right; at each one the label must match literally and a
digit run must follow the whitespace. -/
def searchLabelDigits (label : String) : List Char → Option String
  | [] => none
  | c :: t =>
    match
      (if label.toList.isPrefixOf (c :: t)
        then matchSpacesDigits ((c :: t).drop label.length) else none) with
    | some d => some d
    | none => searchLabelDigits label t

/-- The tail `.*?:\s*(\d+)` of the adapter-count pattern: a lazy run of
non-newline characters, a colon, whitespace, then digits.  Lazy matching
tries the colon at the earliest position first and extends one (non-newline)
character at a time. -/
def lazyColonDigits : List Char → Option String
  | [] => none
  | c :: t =>
    match (if c == ':' then matchSpacesDigits t else none) with
    | some d => some d
    | none => if c == '\n' then none else lazyColonDigits t

/-- `re.search(r"Reads with.*?:\s*(\d+)", text)`. -/
def searchReadsWith : List Char → Option String
  | [] => none
  | c :: t =>
    match
      (if "Reads with".toList.isPrefixOf (c :: t)
        then lazyColonDigits ((c :: t).drop 10) else none) with
    | some d => some d
    | none => searchReadsWith t

/-- `utils.parse_read_log`: search the log text for `Total reads:` and
`Reads with.*?:`, each followed by a digit run; raise `ValueError` when
either search fails.  Note the searched label is `Total reads:`, and the
captured group `(\d+)` stops at the first non-digit. -/
def parse_read_log (text : String) : Except String (String × String) :=
  let tot := searchLabelDigits "Total reads:" text.toList
  let adapt := searchReadsWith text.toList
  match tot, adapt with
  | some t, some a => .ok (t, a)
  | _, _ => .error "Expected read counts not found"

/-- How `open_barcode_file` can fail: its own `BarcodeFileError`, or a plain
`KeyError` from indexing a column name the frame does not have. -/
inductive PyErr where
  | barcodeFileError (msg : String)
  | keyError (key : String)
deriving Repr, DecidableEq

/-- A pandas DataFrame as `pd.read_csv(path, header=0)` yields it: named
columns over rows of cells. -/
structure PdFrame where
  cols : List String
  rows : List (List Cell)
deriving Repr, DecidableEq

/-- `frame[name]`: the named column, or a `KeyError` when absent. -/
def getCol (f : PdFrame) (name : String) : Except PyErr (List Cell) :=
  match f.cols.indexOf? name with
  | some i => .ok (f.rows.map (fun r => r.getD i Cell.na))
  | none => .error (.keyError name)

/-- `isinstance(x, str)` on a cell. -/
def isStrCell : Cell → Bool
  | .str _ => true
  | _ => false

/-- `astype(str)` on one cell (only string cells reach it on the paths the
claims exercise, where it is the identity). -/
def cellStr : Cell → String
  | .str s => s
  | .num q => toString q
  | .na => "nan"

/-- The whitelist sequence pattern `^[ATCGN]{8}$`: exactly eight characters
of the alphabet. -/
def isMer8 (s : String) : Bool :=
  decide (s.length = 8) && s.toList.all (fun c => acgtn.contains c)

/-- The digit run of a decimal literal as a natural number. -/
def digitsToNat (ds : List Char) : ℕ :=
  ds.foldl (fun n c => 10 * n + (c.toNat - 48)) 0

/-- A decimal numeral (optional sign, digits, optional fractional part) as a
rational; `none` for text that is not such a numeral. -/
def parseDecimal (s : String) : Option ℚ :=
  let cs0 := s.toList
  let neg := cs0.head? = some (Char.ofNat 45)
  let cs := if cs0.head? = some (Char.ofNat 45) then cs0.tail else cs0
  let ip := cs.takeWhile (fun c => c.isDigit)
  let rest := cs.drop ip.length
  let core : Option ℚ :=
    match rest with
    | [] => if ip.isEmpty then none else some ((digitsToNat ip : ℚ))
    | d :: fracPart =>
      if d = Char.ofNat 46 ∧ fracPart.all (fun c => c.isDigit) ∧
          ¬(ip.isEmpty ∧ fracPart.isEmpty) then
        some ((digitsToNat ip : ℚ) +
          (digitsToNat fracPart : ℚ) / ((10 : ℚ) ^ fracPart.length))
      else none
  core.map (fun q => if neg then -q else q)

/-- `pd.to_numeric(cell, errors="coerce")`: numbers stay, numeric text is
parsed, anything else becomes missing. -/
def toNumeric : Cell → Option ℚ
  | .num q => some q
  | .str s => parseDecimal s
  | .na => none

/-- pandas `Series.unique`: distinct values in first-occurrence order. -/
def uniqueFirst {α : Type} [DecidableEq α] (l : List α) : List α :=
  l.foldl (fun acc a => if acc.contains a then acc else acc ++ [a]) []

/-- The `for c in ["row", "col"]` body of `open_barcode_file`: coerce the
column to numeric, then fail on non-numeric, fractional, or negative values,
each error naming the column and up to 5 distinct example bad values; on
success the column is cast to int. -/
def checkNumericCol (cname : String) (cells : List Cell) : Except PyErr (List ℤ) := do
  let vals := cells.map toNumeric
  if (vals.any (fun v => v.isNone)) then
    let bad := (((cells.zip vals).filter (fun p => p.2.isNone)).map
      (fun p => cellStr p.1))
    throw (.barcodeFileError (cname ++ " column contains non-numeric values. Examples: "
      ++ toString (uniqueFirst bad |>.take 5)))
  let qs := vals.filterMap id
  if qs.any (fun q => !(q.den == 1)) then
    let bad := qs.filter (fun q => !(q.den == 1))
    throw (.barcodeFileError (cname ++ " column must contain integer values. Examples: "
      ++ toString (uniqueFirst bad |>.take 5)))
  if qs.any (fun q => decide (q < 0)) then
    let bad := qs.filter (fun q => decide (q < 0))
    throw (.barcodeFileError (cname ++ " column contains negative values. Examples: "
      ++ toString (uniqueFirst bad |>.take 5)))
  return qs.map (fun q => q.num)

/-- `files.open_barcode_file`: require at least 3 columns and keep the first
3; require every `sequence` cell string-typed — though the example shown in
that error is read from a column named `barcodes`, which a whitelist frame
does not have, so that path raises `KeyError` before the `BarcodeFileError`
is built; require every sequence an 8-mer over A,T,C,G,N; then validate
`row` and `col` as non-negative integers. -/
def open_barcode_file (f : PdFrame) : Except PyErr (List BCLRow) := do
  if f.cols.length < 3 then
    throw (.barcodeFileError ("Positions file must have at least 3 columns; found "
      ++ toString f.cols.length))
  let f3 : PdFrame := ⟨f.cols.take 3, f.rows.map (fun r => r.take 3)⟩
  let seq ← getCol f3 "sequence"
  if !(seq.all isStrCell) then
    let bad ← getCol f3 "barcodes"
    throw (.barcodeFileError ("Non-string barcodes detected (example: "
      ++ cellStr ((bad.filter (fun c => !(isStrCell c))).headD Cell.na) ++ ")"
      ++ "Please ensure you are using the correct tissue_postions file"))
  let invalid := seq.filter (fun c => !(isMer8 (cellStr c)))
  if !(invalid.isEmpty) then
    let bad := uniqueFirst (invalid.map cellStr) |>.take 5
    throw (.barcodeFileError
      ("Invalid barcodes detected (expected 8-mer of A/T/C/G/N). Examples: "
        ++ toString bad
        ++ "Please ensure you are using the correct tissue_postions file"))
  let rowCells ← getCol f3 "row"
  let rowVals ← checkNumericCol "row" rowCells
  let colCells ← getCol f3 "col"
  let colVals ← checkNumericCol "col" colCells
  return (seq.map cellStr |>.zip (rowVals.zip colVals)).map
    (fun p => ⟨p.1, p.2.1, p.2.2⟩)

/-- Mean of `frac_count` over a lane table, pandas `Series.mean` (the empty
table gives NaN in pandas; here the rational convention 0/0 = 0 applies, and
no lemma below depends on the empty case). -/
def laneMean (l : List LaneRow) : ℚ :=
  (l.map (fun r => r.frac_count)).sum / (l.length : ℚ)

/-- The channel `c` carries the selected warning flag somewhere in the lane
table (with an actual, non-missing channel value). -/
def ChannelFlagged (bc : List LaneRow) (flag : FlagCol) (c : ℤ) : Prop :=
  ∃ r ∈ bc, flagVal r flag = true ∧ r.channel = some c

/-- The count of rows whose running cumulative sum stays at or below `x`:
the shape of `num_to_ninety` in `build_count_table`. -/
def cumFilterLen (x acc : ℚ) (l : List (String × ℕ × ℚ)) : ℕ :=
  ((addCumulative acc l).filter (fun r => decide (r.cumulative_sum ≤ x))).length

/-! ## Concrete inputs used by the claim checks -/

/-- Ten subsampled reads over three distinct 8-mers with counts 5, 3, 2. -/
def tenReads : List String :=
  ["AAAAAAAA", "AAAAAAAA", "AAAAAAAA", "AAAAAAAA", "AAAAAAAA",
   "CCCCCCCC", "CCCCCCCC", "CCCCCCCC", "GGGGGGGG", "GGGGGGGG"]

/-- Three reads over three distinct 8-mers: a count table with 3 rows. -/
def threeMers : List String := ["AAAAAAAA", "CCCCCCCC", "GGGGGGGG"]

/-- A count table of three expected 8-mers on channels 1..3 whose fractions
are 4/5, 1/10, 1/10 (mean 1/3): channel 1 exceeds twice the mean and
channels 2 and 3 fall below half of it. -/
def hiLoDemo : List CountRow :=
  [⟨"AAAAAAAA", 8, 4/5, 4/5, some 1, some 1, some 1, true⟩,
   ⟨"CCCCCCCC", 1, 1/10, 9/10, some 2, some 2, some 2, true⟩,
   ⟨"GGGGGGGG", 1, 1/10, 1, some 3, some 3, some 3, true⟩]

/-- An extraction log exactly in the documented format: the literal labels
`Total reads processed:` and `Reads with adapters:` followed by comma-grouped
integers (the format the adapter-trimming tool writes). -/
def cutadaptLogSample : String :=
  "Total reads processed:             1,000,000\nReads with adapters:                 750,000 (75.0%)\n"

/-- A six-row wildcard file whose sample row (index 5) has no 8-mer field:
the column scan finds zero matches. -/
def badWcFile : List (List String) := List.replicate 6 ["read1", "x"]

/-- A six-row wildcard file that parses: one 8-mer column followed by the
read name. -/
def okWcFile : List (List String) := List.replicate 6 ["ACGTACGT", "read1"]

/-- A whitelist frame whose `sequence` column is numeric (pandas reads a
fully numeric CSV column as integers, not strings). -/
def numericSequenceFrame : PdFrame :=
  ⟨["sequence", "row", "col"], [[Cell.num 12345678, Cell.num 0, Cell.num 0]]⟩

/-! ## Helper lemmas about the count table -/

lemma addCumulative_map_frac (acc : ℚ) (l : List (String × ℕ × ℚ)) :
    (addCumulative acc l).map (fun r => r.frac_count) = l.map (fun p => p.2.2) := by
  induction l generalizing acc with
  | nil => rfl
  | cons p t ih =>
    obtain ⟨s, c, f⟩ := p
    simp [addCumulative, ih]

lemma addCumulative_length (acc : ℚ) (l : List (String × ℕ × ℚ)) :
    (addCumulative acc l).length = l.length := by
  induction l generalizing acc with
  | nil => rfl
  | cons p t ih =>
    obtain ⟨s, c, f⟩ := p
    simp [addCumulative, ih]

lemma addCumulative_cum_ge (acc : ℚ) (l : List (String × ℕ × ℚ))
    (hnn : ∀ p ∈ l, 0 ≤ p.2.2) :
    ∀ r ∈ addCumulative acc l, acc ≤ r.cumulative_sum := by
  induction l generalizing acc with
  | nil => intro r hr; simp [addCumulative] at hr
  | cons p t ih =>
    obtain ⟨s, c, f⟩ := p
    intro r hr
    have hf : 0 ≤ f := hnn (s, c, f) (by simp)
    rcases List.mem_cons.mp hr with h | h
    · rw [h]; simpa using hf
    · have := ih (acc + f) (fun q hq => hnn q (List.mem_cons_of_mem _ hq)) r h
      linarith

lemma addCumulative_chain (acc : ℚ) (l : List (String × ℕ × ℚ))
    (hnn : ∀ p ∈ l, 0 ≤ p.2.2) :
    List.Chain' (· ≤ ·) ((addCumulative acc l).map (fun r => r.cumulative_sum)) := by
  induction l generalizing acc with
  | nil => simp [addCumulative]
  | cons p t ih =>
    obtain ⟨s, c, f⟩ := p
    have hf : 0 ≤ f := hnn (s, c, f) (by simp)
    have htail : ∀ p ∈ t, 0 ≤ p.2.2 := fun q hq => hnn q (List.mem_cons_of_mem _ hq)
    cases t with
    | nil => simp [addCumulative]
    | cons q t2 =>
      obtain ⟨s2, c2, f2⟩ := q
      have hf2 : 0 ≤ f2 := htail (s2, c2, f2) (by simp)
      have ihh := ih (acc + f) htail
      simp only [addCumulative, List.map_cons] at ihh ⊢
      rw [List.chain'_cons]
      exact ⟨by linarith, ihh⟩

lemma addCumulative_last (acc : ℚ) (l : List (String × ℕ × ℚ)) (h : l ≠ []) :
    ((addCumulative acc l).map (fun r => r.cumulative_sum)).getLast?
      = some (acc + (l.map (fun p => p.2.2)).sum) := by
  induction l generalizing acc with
  | nil => exact absurd rfl h
  | cons p t ih =>
    obtain ⟨s, c, f⟩ := p
    cases t with
    | nil => simp [addCumulative]
    | cons q t2 =>
      obtain ⟨s2, c2, f2⟩ := q
      have ihh := ih (acc + f) (by simp)
      simp only [addCumulative, List.map_cons, List.sum_cons] at ihh ⊢
      rw [List.getLast?_cons_cons, ihh]
      congr 1
      ring

lemma sum_map_div_const (l : List ℚ) (c : ℚ) :
    (l.map (fun q => q / c)).sum = l.sum / c := by
  induction l with
  | nil => simp
  | cons q t ih => simp [ih, add_div]

lemma valueCounts_counts_sum (mers : List String) :
    ((valueCounts mers).map (fun p => p.2)).sum = mers.length := by
  have hperm : ((mers.dedup.map (fun s => (s, mers.count s))).insertionSort
      (fun a b => b.2 ≤ a.2)).Perm (mers.dedup.map (fun s => (s, mers.count s))) :=
    List.perm_insertionSort _ _
  have hmap := (hperm.map (fun p : String × ℕ => p.2)).sum_eq
  unfold valueCounts
  rw [hmap, List.map_map]
  simpa using List.sum_map_count_dedup_eq_length mers

lemma sortedWithFrac_sum (mers : List String) (h : mers ≠ []) :
    ((sortedWithFrac mers).map (fun p => p.2.2)).sum = 1 := by
  have hperm : (sortedWithFrac mers).Perm
      ((valueCounts mers).map (fun p =>
        (p.1, p.2, (p.2 : ℚ) / ((((valueCounts mers).map (fun q => q.2)).sum : ℕ) : ℚ)))) :=
    List.perm_insertionSort _ _
  have hmap := (hperm.map (fun p : String × ℕ × ℚ => p.2.2)).sum_eq
  rw [hmap, List.map_map]
  have hcast : (List.map ((fun p : String × ℕ × ℚ => p.2.2) ∘ (fun p : String × ℕ =>
        (p.1, p.2, (p.2 : ℚ) / ((((valueCounts mers).map (fun q => q.2)).sum : ℕ) : ℚ))))
        (valueCounts mers))
      = ((valueCounts mers).map (fun p => ((p.2 : ℕ) : ℚ))).map
        (fun q => q / ((((valueCounts mers).map (fun q => q.2)).sum : ℕ) : ℚ)) := by
    rw [List.map_map]; rfl
  rw [hcast, sum_map_div_const]
  have hs : ((valueCounts mers).map (fun p => p.2)).sum = mers.length :=
    valueCounts_counts_sum mers
  have hc : ((valueCounts mers).map (fun p => ((p.2 : ℕ) : ℚ))).sum
      = ((((valueCounts mers).map (fun q => q.2)).sum : ℕ) : ℚ) := by
    rw [Nat.cast_list_sum, List.map_map]; rfl
  rw [hc]
  have hlen : mers.length ≠ 0 := fun hl => h (List.length_eq_zero.mp hl)
  refine div_self ?_
  rw [hs]
  exact_mod_cast hlen

lemma sortedWithFrac_nonneg (mers : List String) :
    ∀ p ∈ sortedWithFrac mers, 0 ≤ p.2.2 := by
  intro p hp
  unfold sortedWithFrac at hp
  rw [(List.perm_insertionSort _ _).mem_iff] at hp
  obtain ⟨q, _, rfl⟩ := List.mem_map.mp hp
  exact div_nonneg (by positivity) (by positivity)

lemma sortedWithFrac_length (mers : List String) :
    (sortedWithFrac mers).length = mers.dedup.length := by
  unfold sortedWithFrac
  rw [(List.perm_insertionSort _ _).length_eq, List.length_map]
  unfold valueCounts
  rw [(List.perm_insertionSort _ _).length_eq, List.length_map]

lemma ninety_core (x : ℚ) (l : List (String × ℕ × ℚ))
    (hnn : ∀ p ∈ l, 0 ≤ p.2.2) (acc : ℚ) :
    cumFilterLen x acc l ≤ l.length ∧
    (0 < cumFilterLen x acc l →
      acc + ((l.map (fun p => p.2.2)).take (cumFilterLen x acc l)).sum ≤ x) ∧
    (cumFilterLen x acc l < l.length →
      x < acc + ((l.map (fun p => p.2.2)).take (cumFilterLen x acc l + 1)).sum) ∧
    (∀ j ≤ l.length, acc + ((l.map (fun p => p.2.2)).take j).sum ≤ x →
      j ≤ cumFilterLen x acc l) := by
  induction l generalizing acc with
  | nil =>
    simp only [cumFilterLen, addCumulative, List.filter_nil, List.length_nil,
      List.map_nil, List.take_nil, List.sum_nil]
    refine ⟨le_refl _, by simp, by simp, ?_⟩
    intro j hj _
    exact hj
  | cons p t ih =>
    obtain ⟨s, c, f⟩ := p
    have hf : 0 ≤ f := hnn (s, c, f) (by simp)
    have htail : ∀ q ∈ t, 0 ≤ q.2.2 := fun q hq => hnn q (List.mem_cons_of_mem _ hq)
    by_cases hc : acc + f ≤ x
    · have hk : cumFilterLen x acc ((s, c, f) :: t) = cumFilterLen x (acc + f) t + 1 := by
        simp [cumFilterLen, addCumulative, List.filter_cons, hc, Nat.add_comm]
      obtain ⟨ih1, ih2, ih3, ih4⟩ := ih htail (acc + f)
      rw [hk]
      refine ⟨by simpa using Nat.add_le_add_right ih1 1, ?_, ?_, ?_⟩
      · intro _
        rcases Nat.eq_zero_or_pos (cumFilterLen x (acc + f) t) with h0 | hpos
        · rw [h0]; simpa using hc
        · have := ih2 hpos
          simp only [List.map_cons, List.take_succ_cons, List.sum_cons]
          linarith
      · intro hlt
        have hlt' : cumFilterLen x (acc + f) t < t.length := by
          simpa using hlt
        have := ih3 hlt'
        simp only [List.map_cons, List.take_succ_cons, List.sum_cons]
        linarith
      · intro j hj hsum
        cases j with
        | zero => exact Nat.zero_le _
        | succ j2 =>
          have hj2 : j2 ≤ t.length := by simpa using hj
          have hsum2 : (acc + f) + ((t.map (fun p => p.2.2)).take j2).sum ≤ x := by
            simp only [List.map_cons, List.take_succ_cons, List.sum_cons] at hsum
            linarith
          exact Nat.succ_le_succ (ih4 j2 hj2 hsum2)
    · have hk : cumFilterLen x acc ((s, c, f) :: t) = 0 := by
        have hdrop : ∀ r ∈ addCumulative (acc + f) t,
            ¬(decide (r.cumulative_sum ≤ x) = true) := by
          intro r hr
          have := addCumulative_cum_ge (acc + f) t htail r hr
          simp only [decide_eq_true_eq]
          intro hle
          exact hc (le_trans (by linarith) hle)
        simp [cumFilterLen, addCumulative, List.filter_cons, hc,
          List.filter_eq_nil_iff.mpr hdrop]
      rw [hk]
      refine ⟨Nat.zero_le _, by simp, ?_, ?_⟩
      · intro _
        have : x < acc + f := lt_of_not_le hc
        simpa using this
      · intro j hj hsum
        cases j with
        | zero => exact le_refl _
        | succ j2 =>
          exfalso
          have hs' : 0 ≤ ((t.map (fun p => p.2.2)).take j2).sum := by
            refine List.sum_nonneg ?_
            intro y hy
            obtain ⟨q, hq, rfl⟩ := List.mem_map.mp (List.mem_of_mem_take hy)
            exact htail q hq
          simp only [List.map_cons, List.take_succ_cons, List.sum_cons] at hsum
          exact hc (by linarith)

lemma sortedWithFrac_ne_nil (mers : List String) (h : mers ≠ []) :
    sortedWithFrac mers ≠ [] := by
  intro hnil
  have hlen := sortedWithFrac_length mers
  rw [hnil] at hlen
  have hded : mers.dedup = [] := List.length_eq_zero.mp hlen.symm
  exact h ((List.dedup_eq_nil mers).mp hded)

lemma count_table_sorted_map_frac (mers : List String) :
    (count_table_sorted mers).map (fun r => r.frac_count)
      = (sortedWithFrac mers).map (fun p => p.2.2) :=
  addCumulative_map_frac 0 (sortedWithFrac mers)

lemma count_table_sorted_length (mers : List String) :
    (count_table_sorted mers).length = mers.dedup.length := by
  rw [count_table_sorted, addCumulative_length, sortedWithFrac_length]

/-! ## Helper lemmas about the whitelist join -/

lemma filter_bcl_len_le_one (bcl : List BCLRow)
    (h : (bcl.map (fun b => b.sequence)).Nodup) (s : String) :
    (bcl.filter (fun b => b.sequence == s)).length ≤ 1 := by
  have h2 : List.countP (fun b : BCLRow => b.sequence == s) bcl
      = List.count s (bcl.map (fun b => b.sequence)) := by
    rw [List.count_eq_countP, List.countP_map]
    rfl
  rw [← List.countP_eq_length_filter, h2]
  exact List.nodup_iff_count_le_one.mp h s

lemma joinOneRow_map_pair (bcl : List BCLRow) (rc : RowCol) (expected : List String)
    (r : CRow) (h : (bcl.map (fun b => b.sequence)).Nodup) :
    (joinOneRow bcl rc expected r).map (fun q => (q.frac_count, q.cumulative_sum))
      = [(r.frac_count, r.cumulative_sum)] := by
  unfold joinOneRow
  by_cases hms : (bcl.filter (fun b => b.sequence == r.sequence)).isEmpty = true
  · simp [hms]
  · have hne : bcl.filter (fun b => b.sequence == r.sequence) ≠ [] := by
      intro hnil
      exact hms (by rw [hnil]; rfl)
    have hpos : 0 < (bcl.filter (fun b => b.sequence == r.sequence)).length :=
      List.length_pos.mpr hne
    have hle := filter_bcl_len_le_one bcl h r.sequence
    have h1 : (bcl.filter (fun b => b.sequence == r.sequence)).length = 1 := by omega
    obtain ⟨b, hb⟩ := List.length_eq_one.mp h1
    simp [hms, hb]

lemma joinWhitelist_map_pair (bcl : List BCLRow) (rc : RowCol) (expected : List String)
    (pre : List CRow) (h : (bcl.map (fun b => b.sequence)).Nodup) :
    (joinWhitelist bcl rc expected pre).map (fun q => (q.frac_count, q.cumulative_sum))
      = pre.map (fun r => (r.frac_count, r.cumulative_sum)) := by
  induction pre with
  | nil => rfl
  | cons r t ih =>
    rw [joinWhitelist, List.flatMap_cons, List.map_append]
    rw [joinWhitelist] at ih
    rw [ih, joinOneRow_map_pair bcl rc expected r h]
    rfl

lemma joinWhitelist_map_frac (bcl : List BCLRow) (rc : RowCol) (expected : List String)
    (pre : List CRow) (h : (bcl.map (fun b => b.sequence)).Nodup) :
    (joinWhitelist bcl rc expected pre).map (fun q => q.frac_count)
      = pre.map (fun r => r.frac_count) := by
  have hp := joinWhitelist_map_pair bcl rc expected pre h
  calc (joinWhitelist bcl rc expected pre).map (fun q => q.frac_count)
      = ((joinWhitelist bcl rc expected pre).map
          (fun q => (q.frac_count, q.cumulative_sum))).map Prod.fst := by
        rw [List.map_map]; rfl
    _ = (pre.map (fun r => (r.frac_count, r.cumulative_sum))).map Prod.fst := by rw [hp]
    _ = pre.map (fun r => r.frac_count) := by rw [List.map_map]; rfl

lemma joinWhitelist_map_cum (bcl : List BCLRow) (rc : RowCol) (expected : List String)
    (pre : List CRow) (h : (bcl.map (fun b => b.sequence)).Nodup) :
    (joinWhitelist bcl rc expected pre).map (fun q => q.cumulative_sum)
      = pre.map (fun r => r.cumulative_sum) := by
  have hp := joinWhitelist_map_pair bcl rc expected pre h
  calc (joinWhitelist bcl rc expected pre).map (fun q => q.cumulative_sum)
      = ((joinWhitelist bcl rc expected pre).map
          (fun q => (q.frac_count, q.cumulative_sum))).map Prod.snd := by
        rw [List.map_map]; rfl
    _ = (pre.map (fun r => (r.frac_count, r.cumulative_sum))).map Prod.snd := by rw [hp]
    _ = pre.map (fun r => r.cumulative_sum) := by rw [List.map_map]; rfl

/-! ## The percent formatter at the value 1 -/

lemma pctFormat_one : pctFormat 1 = "100.0%" := by
  have h1 : roundHalfEven ((1 : ℚ) * 1000) = 1000 := by
    unfold roundHalfEven
    norm_num
  unfold pctFormat
  rw [h1]
  decide

/-! ## Concrete evaluations of the count table -/

lemma vc_tenReads : valueCounts tenReads
    = [("AAAAAAAA", 5), ("CCCCCCCC", 3), ("GGGGGGGG", 2)] := by decide

lemma cts_tenReads : count_table_sorted tenReads =
    [⟨"AAAAAAAA", 5, 1/2, 1/2⟩, ⟨"CCCCCCCC", 3, 3/10, 4/5⟩,
      ⟨"GGGGGGGG", 2, 1/5, 1⟩] := by
  unfold count_table_sorted sortedWithFrac
  rw [vc_tenReads]
  norm_num [addCumulative, List.insertionSort, List.orderedInsert]

lemma vc_threeMers : valueCounts threeMers
    = [("AAAAAAAA", 1), ("CCCCCCCC", 1), ("GGGGGGGG", 1)] := by decide

lemma cts_threeMers : count_table_sorted threeMers =
    [⟨"AAAAAAAA", 1, 1/3, 1/3⟩, ⟨"CCCCCCCC", 1, 1/3, 2/3⟩,
      ⟨"GGGGGGGG", 1, 1/3, 1⟩] := by
  unfold count_table_sorted sortedWithFrac
  rw [vc_threeMers]
  norm_num [addCumulative, List.insertionSort, List.orderedInsert]

/-! ## Claim theorems -/

/-- C10: for every wildcard file whose whitespace-delimited table has fewer
than 6 rows, `load_wc_file` fails before performing the 8-mer column scan
(the fixed sample-row access at row index 5 is out of bounds, and an empty
file already fails inside the reader), and the resulting error is not the
documented `WildcardFileError`. -/
theorem load_wc_file_short_input_fails (rows : List (List String))
    (h : rows.length < 6) :
    ∃ e, load_wc_file rows = Except.error e ∧
      (∀ msg, e ≠ LoadErr.wildcardFileError msg) ∧
      (rows ≠ [] → e = LoadErr.indexError) := by
  by_cases he : rows.isEmpty = true
  · refine ⟨LoadErr.emptyDataError, ?_, fun msg => by simp,
      fun hne => absurd (List.isEmpty_iff.mp he) hne⟩
    simp [load_wc_file, he]
  · have h5 : rows[5]? = none := List.getElem?_eq_none (by omega)
    refine ⟨LoadErr.indexError, ?_, fun msg => by simp, fun _ => rfl⟩
    simp [load_wc_file, he, h5]

/-- C10 witness: a two-row wildcard file fails with the out-of-bounds
`IndexError`, not a `WildcardFileError`. -/
theorem load_wc_file_short_input_fails_witness :
    ∃ e, load_wc_file [["x"], ["y"]] = Except.error e ∧
      (∀ msg, e ≠ LoadErr.wildcardFileError msg) ∧
      ([["x"], ["y"]] ≠ ([] : List (List String)) → e = LoadErr.indexError) :=
  load_wc_file_short_input_fails [["x"], ["y"]] (by decide)

/-- C5: on an extraction log exactly in the documented format — the literal
labels `Total reads processed:` and `Reads with adapters:` each followed by a
comma-grouped integer — `parse_read_log` raises `ValueError` instead of
returning the counts: its regex looks for the label `Total reads:`, which
never occurs in that format (and its capture `(\d+)` would stop at the first
comma anyway). -/
theorem parse_read_log_documented_format_raises :
    parse_read_log cutadaptLogSample
      = Except.error "Expected read counts not found" := by
  rfl

/-- C3: a wildcard file whose 8-mer column discovery fails makes
`make_spatial_table` terminate the process via `exit(0)` — exit status zero,
the success status — rather than propagating the error to the top-level
command for a non-zero exit. -/
theorem make_spatial_table_parse_failure_exits_zero :
    load_wc_file badWcFile
        = Except.error (LoadErr.wildcardFileError "No 8-mer column matches found") ∧
    make_spatial_table badWcFile okWcFile [] = SpatialOutcome.exited 0 := by
  exact ⟨rfl, rfl⟩

/-- C4: a whitelist whose `sequence` column is numeric (not string-typed)
makes `open_barcode_file` raise a bare `KeyError` for the column name
`barcodes` — the error branch reads its example value from a column the
whitelist frame does not have — instead of the documented
`BarcodeFileError`. -/
theorem open_barcode_file_nonstring_raises_keyerror :
    open_barcode_file numericSequenceFrame
      = Except.error (PyErr.keyError "barcodes") := by
  rfl

/-- C9: for every count table built from a non-empty wildcard table (with a
duplicate-free whitelist, the data model's invariant), the `frac_count`
column sums to exactly 1 over ℚ, and `cumulative_sum` is non-decreasing
along the descending-frequency order and equals 1 at the last row. -/
theorem count_table_frac_sum_one (mers : List String) (bcl : List BCLRow)
    (rc : RowCol) (h : mers ≠ [])
    (hbcl : (bcl.map (fun b => b.sequence)).Nodup) :
    ((build_count_table mers bcl rc).table.map (fun r => r.frac_count)).sum = 1 ∧
    List.Chain' (· ≤ ·)
      ((build_count_table mers bcl rc).table.map (fun r => r.cumulative_sum)) ∧
    ((build_count_table mers bcl rc).table.map
      (fun r => r.cumulative_sum)).getLast? = some 1 := by
  have htab : (build_count_table mers bcl rc).table
      = joinWhitelist bcl rc
          (((count_table_sorted mers).map (fun r => r.sequence)).filter
            (fun s => (bcl.map (fun b => b.sequence)).contains s))
          (count_table_sorted mers) := rfl
  refine ⟨?_, ?_, ?_⟩
  · rw [htab, joinWhitelist_map_frac _ _ _ _ hbcl, count_table_sorted_map_frac]
    exact sortedWithFrac_sum mers h
  · rw [htab, joinWhitelist_map_cum _ _ _ _ hbcl]
    exact addCumulative_chain 0 (sortedWithFrac mers) (sortedWithFrac_nonneg mers)
  · rw [htab, joinWhitelist_map_cum _ _ _ _ hbcl]
    have hlast := addCumulative_last 0 (sortedWithFrac mers)
      (sortedWithFrac_ne_nil mers h)
    rw [show (count_table_sorted mers).map (fun r => r.cumulative_sum)
        = (addCumulative 0 (sortedWithFrac mers)).map (fun r => r.cumulative_sum)
      from rfl, hlast, sortedWithFrac_sum mers h]
    norm_num

/-- C9 witness: the conclusion at the concrete ten-read wildcard table and
the empty whitelist. -/
theorem count_table_frac_sum_one_witness :
    ((build_count_table tenReads [] RowCol.row).table.map
      (fun r => r.frac_count)).sum = 1 ∧
    List.Chain' (· ≤ ·)
      ((build_count_table tenReads [] RowCol.row).table.map
        (fun r => r.cumulative_sum)) ∧
    ((build_count_table tenReads [] RowCol.row).table.map
      (fun r => r.cumulative_sum)).getLast? = some 1 :=
  count_table_frac_sum_one tenReads [] RowCol.row (by decide) (by simp)

/-- C8 (amended): `num_to_ninety` is the largest prefix length of the
descending-sorted count table whose `frac_count` prefix sum stays at or
below 0.9: the prefix of that length sums to at most 0.9, appending one more
row pushes the sum above 0.9 (or the table is exhausted), and every prefix
whose sum stays at or below 0.9 is no longer.  (It is not, in general, the
minimum number of most-frequent barcodes needed to account for 90% of the
reads: that minimum can exceed it by one.) -/
theorem num_to_ninety_characterization (mers : List String) (bcl : List BCLRow)
    (rc : RowCol) :
    (build_count_table mers bcl rc).num_to_ninety
        ≤ ((count_table_sorted mers).map (fun r => r.frac_count)).length ∧
    ((((count_table_sorted mers).map (fun r => r.frac_count)).take
        ((build_count_table mers bcl rc).num_to_ninety)).sum ≤ 9/10) ∧
    ((build_count_table mers bcl rc).num_to_ninety
          < ((count_table_sorted mers).map (fun r => r.frac_count)).length →
      9/10 < (((count_table_sorted mers).map (fun r => r.frac_count)).take
        ((build_count_table mers bcl rc).num_to_ninety + 1)).sum) ∧
    (∀ j ≤ ((count_table_sorted mers).map (fun r => r.frac_count)).length,
      (((count_table_sorted mers).map (fun r => r.frac_count)).take j).sum ≤ 9/10 →
      j ≤ (build_count_table mers bcl rc).num_to_ninety) := by
  have hknum : (build_count_table mers bcl rc).num_to_ninety
      = cumFilterLen (9/10) 0 (sortedWithFrac mers) := rfl
  obtain ⟨g1, g2, g3, g4⟩ :=
    ninety_core (9/10) (sortedWithFrac mers) (sortedWithFrac_nonneg mers) 0
  rw [hknum, count_table_sorted_map_frac, List.length_map]
  refine ⟨g1, ?_, ?_, ?_⟩
  · rcases Nat.eq_zero_or_pos (cumFilterLen (9/10) 0 (sortedWithFrac mers))
      with h0 | hpos
    · rw [h0]
      norm_num
    · have := g2 hpos
      linarith
  · intro hlt
    have := g3 hlt
    linarith
  · intro j hj hsum
    exact g4 j hj (by linarith)

/-- C8 counterexample: on ten reads with per-8-mer counts 5, 3, 2 (fractions
1/2, 3/10, 1/5), `num_to_ninety` is 2, yet the top 2 barcodes cover only
4/5 < 90% of the reads — 3 barcodes are needed to account for 90% — so
`num_to_ninety` is not the minimum number of most-frequent barcodes needed
to account for 90% of reads. -/
theorem num_to_ninety_not_min_cover :
    (build_count_table tenReads [] RowCol.row).num_to_ninety = 2 ∧
    (((count_table_sorted tenReads).map (fun r => r.frac_count)).take 2).sum
        < 9/10 ∧
    9/10 ≤ (((count_table_sorted tenReads).map (fun r => r.frac_count)).take 3).sum := by
  have hknum : (build_count_table tenReads [] RowCol.row).num_to_ninety
      = ((count_table_sorted tenReads).filter
          (fun r => decide (r.cumulative_sum ≤ 9/10))).length := rfl
  rw [hknum, cts_tenReads]
  norm_num [List.filter]

/-- C6 (amended): for every count table with fewer than 50 (respectively 96)
rows (distinct observed 8-mers), `pct_for_50` (respectively `pct_for_96`)
reports the cumulative percentage of the whole table — "100.0%" — rather
than the string "NaN": pandas `iloc[:50]`/`iloc[:96]` slicing truncates
silently on short tables, so the defensive `except` branch never fires
there. -/
theorem pct_small_table_reports_total (mers : List String) (bcl : List BCLRow)
    (rc : RowCol) (h : mers ≠ []) :
    (mers.dedup.length < 50 →
      (build_count_table mers bcl rc).pct_for_50 = "100.0%") ∧
    (mers.dedup.length < 96 →
      (build_count_table mers bcl rc).pct_for_96 = "100.0%") := by
  have hlen : ((count_table_sorted mers).map (fun r => r.frac_count)).length
      = mers.dedup.length := by
    rw [List.length_map, count_table_sorted_length]
  have hsum : ((count_table_sorted mers).map (fun r => r.frac_count)).sum = 1 := by
    rw [count_table_sorted_map_frac]
    exact sortedWithFrac_sum mers h
  constructor
  · intro hn
    have h50 : (build_count_table mers bcl rc).pct_for_50
        = pctFormat (((count_table_sorted mers).map
            (fun r => r.frac_count)).take 50).sum := rfl
    rw [h50, List.take_of_length_le (by omega), hsum, pctFormat_one]
  · intro hn
    have h96 : (build_count_table mers bcl rc).pct_for_96
        = pctFormat (((count_table_sorted mers).map
            (fun r => r.frac_count)).take 96).sum := rfl
    rw [h96, List.take_of_length_le (by omega), hsum, pctFormat_one]

/-- C6 witness: the three-row count table reports "100.0%" for both
percentages. -/
theorem pct_small_table_reports_total_witness :
    (build_count_table threeMers [] RowCol.row).pct_for_50 = "100.0%" ∧
    (build_count_table threeMers [] RowCol.row).pct_for_96 = "100.0%" :=
  ⟨(pct_small_table_reports_total threeMers [] RowCol.row (by decide)).1 (by decide),
    (pct_small_table_reports_total threeMers [] RowCol.row (by decide)).2 (by decide)⟩

/-- C6 counterexample: a count table with 3 rows (fewer than 50) reports
`pct_for_50` as "100.0%", not as the string "NaN". -/
theorem pct_for_50_small_table_not_nan :
    (build_count_table threeMers [] RowCol.row).table.length = 3 ∧
    (build_count_table threeMers [] RowCol.row).pct_for_50 = "100.0%" ∧
    ("100.0%" : String) ≠ "NaN" := by
  refine ⟨?_, ?_, by decide⟩
  · have htab : (build_count_table threeMers [] RowCol.row).table
        = joinWhitelist [] RowCol.row
            (((count_table_sorted threeMers).map (fun r => r.sequence)).filter
              (fun s => (([] : List BCLRow).map (fun b => b.sequence)).contains s))
            (count_table_sorted threeMers) := rfl
    rw [htab, cts_threeMers]
    rfl
  · have h50 : (build_count_table threeMers [] RowCol.row).pct_for_50
        = pctFormat (((count_table_sorted threeMers).map
            (fun r => r.frac_count)).take 50).sum := rfl
    have htake : (((count_table_sorted threeMers).map
          (fun r => r.frac_count)).take 50)
        = (count_table_sorted threeMers).map (fun r => r.frac_count) :=
      List.take_of_length_le
        (by rw [List.length_map, count_table_sorted_length]; decide)
    have hsum : ((count_table_sorted threeMers).map
        (fun r => r.frac_count)).sum = 1 := by
      rw [count_table_sorted_map_frac]
      exact sortedWithFrac_sum threeMers (by decide)
    rw [h50, htake, hsum, pctFormat_one]

lemma hiLoDemo_out :
    (compute_hi_lo_qc hiLoDemo).1 =
      [⟨some 1, 4/5, true, false⟩, ⟨some 2, 1/10, false, true⟩,
        ⟨some 3, 1/10, false, true⟩] := by
  unfold compute_hi_lo_qc laneRestrict flagLane
  norm_num [hiLoDemo, List.insertionSort, List.orderedInsert, chanLEb,
    List.filter, decide_eq_true_eq]

/-- C7: restricted to `expectMer` rows, `compute_hi_lo_qc` sets `hiWarn` on a
row if and only if its `frac_count` exceeds twice the mean `frac_count` of the
restricted set, sets `loWarn` if and only if it falls below half that mean,
and (fractions being non-negative) no row carries both flags. -/
theorem compute_hi_lo_qc_flags (ct : List CountRow)
    (h : ∀ r ∈ ct, 0 ≤ r.frac_count)
    (r : LaneRow) (hr : r ∈ (compute_hi_lo_qc ct).1) :
    (r.hiWarn = true ↔ r.frac_count > 2 * laneMean (compute_hi_lo_qc ct).1) ∧
    (r.loWarn = true ↔ r.frac_count < (1/2) * laneMean (compute_hi_lo_qc ct).1) ∧
    ¬(r.hiWarn = true ∧ r.loWarn = true) := by
  have hout : (compute_hi_lo_qc ct).1
      = (laneRestrict ct).map (flagLane
          (((laneRestrict ct).map (fun q => q.frac_count)).sum
            / ((laneRestrict ct).length : ℚ))) := rfl
  have hmap : ((compute_hi_lo_qc ct).1).map (fun q => q.frac_count)
      = (laneRestrict ct).map (fun q => q.frac_count) := by
    rw [hout, List.map_map]
    rfl
  have hlen : ((compute_hi_lo_qc ct).1).length = (laneRestrict ct).length := by
    rw [hout, List.length_map]
  have hmean : laneMean (compute_hi_lo_qc ct).1
      = ((laneRestrict ct).map (fun q => q.frac_count)).sum
          / ((laneRestrict ct).length : ℚ) := by
    rw [laneMean, hmap, hlen]
  have hM0 : 0 ≤ ((laneRestrict ct).map (fun q => q.frac_count)).sum
      / ((laneRestrict ct).length : ℚ) := by
    apply div_nonneg
    · apply List.sum_nonneg
      intro y hy
      obtain ⟨q, hq, rfl⟩ := List.mem_map.mp hy
      have hq2 : q ∈ ct.filter (fun z => z.expectMer) :=
        ((List.perm_insertionSort _ _).mem_iff).mp hq
      exact h q (List.mem_filter.mp hq2).1
    · positivity
  rw [hout] at hr
  obtain ⟨x, hx, rfl⟩ := List.mem_map.mp hr
  rw [hmean]
  unfold flagLane
  simp only [decide_eq_true_eq]
  refine ⟨trivial, trivial, ?_⟩
  rintro ⟨h1, h2⟩
  linarith

/-- C7 witness: the first output row of the demo table (channel 1, fraction
4/5 against mean 1/3) satisfies the flag characterization. -/
theorem compute_hi_lo_qc_flags_witness :
    ((⟨some 1, 4/5, true, false⟩ : LaneRow).hiWarn = true ↔
      (⟨some 1, 4/5, true, false⟩ : LaneRow).frac_count
        > 2 * laneMean (compute_hi_lo_qc hiLoDemo).1) ∧
    ((⟨some 1, 4/5, true, false⟩ : LaneRow).loWarn = true ↔
      (⟨some 1, 4/5, true, false⟩ : LaneRow).frac_count
        < (1/2) * laneMean (compute_hi_lo_qc hiLoDemo).1) ∧
    ¬((⟨some 1, 4/5, true, false⟩ : LaneRow).hiWarn = true ∧
      (⟨some 1, 4/5, true, false⟩ : LaneRow).loWarn = true) :=
  compute_hi_lo_qc_flags hiLoDemo
    (by intro r hr; fin_cases hr <;> norm_num)
    ⟨some 1, 4/5, true, false⟩
    (by rw [hiLoDemo_out]; simp)

lemma mem_flaggedChannels (bc : List LaneRow) (flag : FlagCol) (c : ℤ) :
    c ∈ flaggedChannels bc flag ↔ ChannelFlagged bc flag c := by
  unfold flaggedChannels ChannelFlagged
  rw [List.mem_dedup, List.mem_filterMap]
  constructor
  · rintro ⟨r, hr, hf⟩
    by_cases hfl : flagVal r flag = true
    · rw [if_pos hfl] at hf
      exact ⟨r, hr, hfl, hf⟩
    · rw [if_neg hfl] at hf
      cases hf
  · rintro ⟨r, hr, hfl, hc⟩
    exact ⟨r, hr, by rw [if_pos hfl, hc]⟩

lemma hasAdjacent_cons_of_tail (a b : ℤ) (t : List ℤ)
    (h : hasAdjacent (b :: t) = true) : hasAdjacent (a :: b :: t) = true := by
  unfold hasAdjacent at h ⊢
  simp only [List.tail_cons] at h ⊢
  rw [List.zip_cons_cons, List.any_cons, h]
  simp

lemma exists_adj_of_hasAdjacent : ∀ (s : List ℤ), hasAdjacent s = true →
    ∃ c, c ∈ s ∧ c + 1 ∈ s := by
  intro s
  induction s with
  | nil => intro h; simp [hasAdjacent] at h
  | cons a t ih =>
    intro h
    cases t with
    | nil => simp [hasAdjacent] at h
    | cons b t2 =>
      unfold hasAdjacent at h
      simp only [List.tail_cons, List.zip_cons_cons, List.any_cons,
        Bool.or_eq_true] at h
      rcases h with h1 | h2
      · have hba : b - a = 1 := by simpa using h1
        exact ⟨a, by simp, by simp [show a + 1 = b by omega]⟩
      · have ht : hasAdjacent (b :: t2) = true := by
          unfold hasAdjacent
          simpa [List.tail_cons] using h2
        obtain ⟨c, hc1, hc2⟩ := ih ht
        exact ⟨c, List.mem_cons_of_mem _ hc1, List.mem_cons_of_mem _ hc2⟩

lemma hasAdjacent_of_mem_mem : ∀ (s : List ℤ), s.Sorted (· ≤ ·) → s.Nodup →
    ∀ c : ℤ, c ∈ s → c + 1 ∈ s → hasAdjacent s = true := by
  intro s
  induction s with
  | nil => intro _ _ c hc; simp at hc
  | cons a t ih =>
    intro hs hn c hc hc1
    rcases List.mem_cons.mp hc with rfl | hct
    · have hc1t : c + 1 ∈ t := by
        rcases List.mem_cons.mp hc1 with he | ht
        · omega
        · exact ht
      cases t with
      | nil => simp at hc1t
      | cons b t2 =>
        have hab : ∀ y ∈ b :: t2, c ≤ y := (List.sorted_cons.mp hs).1
        have hnb : c ∉ b :: t2 := (List.nodup_cons.mp hn).1
        have hb : b = c + 1 := by
          rcases List.mem_cons.mp hc1t with he | ht2
          · omega
          · have hbt : ∀ y ∈ t2, b ≤ y :=
              (List.sorted_cons.mp (List.sorted_cons.mp hs).2).1
            have h1 : b ≤ c + 1 := hbt _ ht2
            have h2 : c ≤ b := hab b (by simp)
            have h3 : b ≠ c := by
              intro he2
              exact hnb (by simp [he2])
            omega
        unfold hasAdjacent
        simp only [List.tail_cons, List.zip_cons_cons, List.any_cons]
        have : b - c = 1 := by omega
        simp [this]
    · have hc1t : c + 1 ∈ t := by
        rcases List.mem_cons.mp hc1 with he | ht
        · exfalso
          have := (List.sorted_cons.mp hs).1 c hct
          omega
        · exact ht
      have htadj := ih (List.sorted_cons.mp hs).2 (List.nodup_cons.mp hn).2 c hct hc1t
      cases t with
      | nil => simp at hct
      | cons b t2 => exact hasAdjacent_cons_of_tail a b t2 htadj

lemma hasAdjacent_sort_iff (l : List ℤ) (hnd : l.Nodup) :
    hasAdjacent (l.insertionSort (· ≤ ·)) = true ↔ ∃ c, c ∈ l ∧ c + 1 ∈ l := by
  have hperm := List.perm_insertionSort (α := ℤ) (· ≤ ·) l
  constructor
  · intro h
    obtain ⟨c, h1, h2⟩ := exists_adj_of_hasAdjacent _ h
    exact ⟨c, hperm.mem_iff.mp h1, hperm.mem_iff.mp h2⟩
  · rintro ⟨c, h1, h2⟩
    exact hasAdjacent_of_mem_mem _ (List.sorted_insertionSort _ l)
      (hperm.nodup_iff.mpr hnd) c
      (hperm.mem_iff.mpr h1) (hperm.mem_iff.mpr h2)

/-- C1 (amended): for every LaneQC table and either flag column, the lane
severity status is PASS exactly when no channels are flagged, ACTION REQUIRED
exactly when some channel is flagged but no two flagged channels are adjacent
(differ by exactly 1), and CONTACT SUPPORT exactly when two flagged channels
are adjacent — for hiWarn and loWarn alike: `lane_status` never distinguishes
the flag columns, and no edge-of-array exception exists. -/
theorem lane_status_characterization (bc : List LaneRow) (flag : FlagCol) :
    (lane_status bc flag = "PASS" ↔ ∀ c : ℤ, ¬ChannelFlagged bc flag c) ∧
    (lane_status bc flag = "CONTACT SUPPORT" ↔
      ∃ c : ℤ, ChannelFlagged bc flag c ∧ ChannelFlagged bc flag (c + 1)) ∧
    (lane_status bc flag = "ACTION REQUIRED" ↔
      (∃ c : ℤ, ChannelFlagged bc flag c) ∧
        ¬∃ c : ℤ, ChannelFlagged bc flag c ∧ ChannelFlagged bc flag (c + 1)) := by
  have hmem : ∀ c, c ∈ flaggedChannels bc flag ↔ ChannelFlagged bc flag c :=
    mem_flaggedChannels bc flag
  have hnd : (flaggedChannels bc flag).Nodup := List.nodup_dedup _
  have hadj : hasAdjacent ((flaggedChannels bc flag).insertionSort (· ≤ ·)) = true
      ↔ ∃ c, ChannelFlagged bc flag c ∧ ChannelFlagged bc flag (c + 1) := by
    rw [hasAdjacent_sort_iff _ hnd]
    constructor
    · rintro ⟨c, h1, h2⟩
      exact ⟨c, (hmem c).mp h1, (hmem (c + 1)).mp h2⟩
    · rintro ⟨c, h1, h2⟩
      exact ⟨c, (hmem c).mpr h1, (hmem (c + 1)).mpr h2⟩
  by_cases hemp : (flaggedChannels bc flag).isEmpty = true
  · have hnil : flaggedChannels bc flag = [] := List.isEmpty_iff.mp hemp
    have hnone : ∀ c : ℤ, ¬ChannelFlagged bc flag c := by
      intro c hc
      have hmm := (hmem c).mpr hc
      rw [hnil] at hmm
      exact absurd hmm (List.not_mem_nil c)
    have hstat : lane_status bc flag = "PASS" := by
      unfold lane_status
      rw [if_pos hemp]
    refine ⟨⟨fun _ => hnone, fun _ => hstat⟩, ?_, ?_⟩
    · constructor
      · intro hcs
        rw [hstat] at hcs
        exact absurd hcs (by decide)
      · rintro ⟨c, h1, _⟩
        exact absurd h1 (hnone c)
    · constructor
      · intro har
        rw [hstat] at har
        exact absurd har (by decide)
      · rintro ⟨⟨c, h1⟩, _⟩
        exact absurd h1 (hnone c)
  · have hne : flaggedChannels bc flag ≠ [] := by
      intro hnil
      rw [hnil] at hemp
      exact hemp rfl
    have hex : ∃ c, ChannelFlagged bc flag c := by
      obtain ⟨c, hc⟩ := List.exists_mem_of_ne_nil _ hne
      exact ⟨c, (hmem c).mp hc⟩
    by_cases hA : hasAdjacent ((flaggedChannels bc flag).insertionSort (· ≤ ·)) = true
    · have hstat : lane_status bc flag = "CONTACT SUPPORT" := by
        unfold lane_status
        rw [if_neg hemp, if_pos hA]
      refine ⟨?_, ⟨fun _ => hadj.mp hA, fun _ => hstat⟩, ?_⟩
      · constructor
        · intro hp
          rw [hstat] at hp
          exact absurd hp (by decide)
        · intro hnone
          obtain ⟨c, hc⟩ := hex
          exact absurd hc (hnone c)
      · constructor
        · intro har
          rw [hstat] at har
          exact absurd har (by decide)
        · rintro ⟨_, hno⟩
          exact (hno (hadj.mp hA)).elim
    · have hstat : lane_status bc flag = "ACTION REQUIRED" := by
        unfold lane_status
        rw [if_neg hemp, if_neg hA]
      have hnoadj : ¬∃ c, ChannelFlagged bc flag c ∧ ChannelFlagged bc flag (c + 1) := by
        intro hx
        exact hA (hadj.mpr hx)
      refine ⟨?_, ?_, ⟨fun _ => ⟨hex, hnoadj⟩, fun _ => hstat⟩⟩
      · constructor
        · intro hp
          rw [hstat] at hp
          exact absurd hp (by decide)
        · intro hnone
          obtain ⟨c, hc⟩ := hex
          exact absurd hc (hnone c)
      · constructor
        · intro hcs
          rw [hstat] at hcs
          exact absurd hcs (by decide)
        · intro hx
          exact (hnoadj hx).elim

/-- C1 counterexample: with loWarn flagged on channels 0 and 1 — an adjacent
flagged block touching the low edge of the array — `lane_status` returns
CONTACT SUPPORT, not the ACTION REQUIRED the claim predicts for a
edge-touching loWarn block. -/
theorem lane_status_loWarn_edge_adjacent_cex :
    lane_status [⟨some 0, 0, false, true⟩, ⟨some 1, 0, false, true⟩]
        FlagCol.loWarn = "CONTACT SUPPORT" ∧
    ("CONTACT SUPPORT" : String) ≠ "ACTION REQUIRED" := by
  exact ⟨rfl, by decide⟩

lemma mem_valueCounts {l : List String} {p : String × ℕ} :
    p ∈ valueCounts l ↔ p.1 ∈ l ∧ p.2 = List.count p.1 l := by
  unfold valueCounts
  rw [(List.perm_insertionSort _ _).mem_iff, List.mem_map]
  constructor
  · rintro ⟨s, hs, rfl⟩
    exact ⟨List.mem_dedup.mp hs, rfl⟩
  · rintro ⟨h1, h2⟩
    refine ⟨p.1, List.mem_dedup.mpr h1, ?_⟩
    obtain ⟨a, b⟩ := p
    simp only at h2 ⊢
    rw [h2]

/-- C2 (amended): the spatial table built by the merge keeps every
position-mapped row and only drops count rows unmatched by a position:
(a) every output row carries `row`/`col`/`on_off`; (b) a combined 16-mer
appears in the output exactly when it was observed in the merged reads AND
its barcode is in the tissue position table (observed 16-mers absent from
the position table are excluded); but (c) — contrary to the claim's
symmetric half — every tissue position row appears in the output, including
positions whose barcode was never observed in the sequencing reads (those
survive the `dropna` with a missing count). -/
theorem spatialCore_membership (t1 t2 : List WcRec) (positions : List PosRow) :
    (∀ r ∈ spatialCore t1 t2 positions,
      r.row.isSome = true ∧ r.col.isSome = true ∧ r.on_off.isSome = true) ∧
    (∀ m : String,
      (∃ r ∈ spatialCore t1 t2 positions, r.mer16 = some m) ↔
        (m ∈ merged16 t1 t2 ∧ ∃ p ∈ positions, p.barcodes = m)) ∧
    (∀ p ∈ positions,
      ∃ r ∈ spatialCore t1 t2 positions, r.barcodes = some p.barcodes) := by
  refine ⟨?_, ?_, ?_⟩
  · intro r hr
    have hp := (List.mem_filter.mp hr).2
    simp only [Bool.and_eq_true] at hp
    exact ⟨hp.1.1, hp.1.2, hp.2⟩
  · intro m
    constructor
    · rintro ⟨r, hr, hm⟩
      obtain ⟨hrm, hpred⟩ := List.mem_filter.mp hr
      simp only [Bool.and_eq_true] at hpred
      rcases List.mem_append.mp hrm with hl | hrt
      · obtain ⟨p, hp, hrp⟩ := List.mem_flatMap.mp hl
        unfold mergeLeftRow at hrp
        by_cases hms : (positions.filter (fun q => q.barcodes == p.1)).isEmpty = true
        · rw [if_pos hms] at hrp
          have hre : r = ⟨some p.1, some p.2, none, none, none, none⟩ := by
            simpa using hrp
          rw [hre] at hpred
          simp at hpred
        · rw [if_neg hms] at hrp
          obtain ⟨q, hq, rfl⟩ := List.mem_map.mp hrp
          have hpm : p.1 = m := by simpa using hm
          obtain ⟨hqp, hqb⟩ := List.mem_filter.mp hq
          have hqbe : q.barcodes = m := by
            rw [← hpm]
            exact beq_iff_eq.mp hqb
          exact ⟨by rw [← hpm]; exact (mem_valueCounts.mp hp).1, q, hqp, hqbe⟩
      · obtain ⟨q, hq, rfl⟩ := List.mem_map.mp hrt
        simp at hm
    · rintro ⟨hm, q, hq, hqb⟩
      refine ⟨⟨some m, some (List.count m (merged16 t1 t2)), some q.barcodes,
        some q.on_off, some q.row, some q.col⟩, ?_, rfl⟩
      apply List.mem_filter.mpr
      refine ⟨?_, by simp⟩
      apply List.mem_append.mpr
      left
      apply List.mem_flatMap.mpr
      refine ⟨(m, List.count m (merged16 t1 t2)),
        mem_valueCounts.mpr ⟨hm, rfl⟩, ?_⟩
      unfold mergeLeftRow
      have hqf : q ∈ positions.filter
          (fun z => z.barcodes == (m, List.count m (merged16 t1 t2)).1) := by
        apply List.mem_filter.mpr
        exact ⟨hq, by simp [hqb]⟩
      have hne : ¬((positions.filter
          (fun z => z.barcodes == (m, List.count m (merged16 t1 t2)).1)).isEmpty
            = true) := by
        intro he
        rw [List.isEmpty_iff] at he
        rw [he] at hqf
        simp at hqf
      rw [if_neg hne]
      exact List.mem_map_of_mem _ hqf
  · intro p hp
    by_cases hobs : p.barcodes ∈ merged16 t1 t2
    · refine ⟨⟨some p.barcodes, some (List.count p.barcodes (merged16 t1 t2)),
        some p.barcodes, some p.on_off, some p.row, some p.col⟩, ?_, rfl⟩
      apply List.mem_filter.mpr
      refine ⟨?_, by simp⟩
      apply List.mem_append.mpr
      left
      apply List.mem_flatMap.mpr
      refine ⟨(p.barcodes, List.count p.barcodes (merged16 t1 t2)),
        mem_valueCounts.mpr ⟨hobs, rfl⟩, ?_⟩
      unfold mergeLeftRow
      have hqf : p ∈ positions.filter (fun z =>
          z.barcodes == (p.barcodes, List.count p.barcodes (merged16 t1 t2)).1) := by
        apply List.mem_filter.mpr
        exact ⟨hp, by simp⟩
      have hne : ¬((positions.filter (fun z =>
          z.barcodes == (p.barcodes,
            List.count p.barcodes (merged16 t1 t2)).1)).isEmpty = true) := by
        intro he
        rw [List.isEmpty_iff] at he
        rw [he] at hqf
        simp at hqf
      rw [if_neg hne]
      exact List.mem_map_of_mem _ hqf
    · refine ⟨⟨none, none, some p.barcodes, some p.on_off, some p.row, some p.col⟩,
        ?_, rfl⟩
      apply List.mem_filter.mpr
      refine ⟨?_, by simp⟩
      apply List.mem_append.mpr
      right
      apply List.mem_map_of_mem
      apply List.mem_filter.mpr
      refine ⟨hp, ?_⟩
      rw [List.all_eq_true]
      intro e he
      have he1 := (mem_valueCounts.mp he).1
      simp only [Bool.not_eq_true', beq_eq_false_iff_ne]
      intro heq
      rw [heq] at he1
      exact hobs he1

/-- C2 counterexample: with one read whose combined 16-mer matches the first
of two tissue positions, the spatial table still contains a row for the
second position barcode (CCCCCCCCCCCCCCCC), which was never observed in the
reads — its count column is missing — so tissue positions never observed in
sequencing are NOT excluded. -/
theorem spatial_table_keeps_unobserved_positions :
    (⟨none, none, some "CCCCCCCCCCCCCCCC", some 0, some 1, some 1⟩ : SpatialRow) ∈
      spatialCore [⟨"ACGTACGT", "r1"⟩] [⟨"TTTTACGT", "r1"⟩]
        [⟨"TTTTACGTACGTACGT", 1, 0, 0⟩, ⟨"CCCCCCCCCCCCCCCC", 0, 1, 1⟩] ∧
    "CCCCCCCCCCCCCCCC" ∉ merged16 [⟨"ACGTACGT", "r1"⟩] [⟨"TTTTACGT", "r1"⟩] := by
  exact ⟨by decide, by decide⟩

end BarcodeQC

